import Mathlib

/-
Verification of the CQmanager batch-admission scheduler core.

The definitions below are a shallow embedding of the Python sources:
  - CQmanager/models/BatchRequestProcessor.py   (the live, key-to-list aggregator)
  - CQmanager/services/Cooldown.py
  - CQmanager/models/v1/AnalysisTaskData.py
  - CQmanager/services/AnalysisManager.py       (dispatch and reconciliation loops)

A Python dict preserving insertion order is embedded as an association list
with unique keys; dict assignment updates the first (hence only) matching
entry, deletion erases it.  Machine integers are Int, sample identifiers are
String.
-/

namespace CQ

/-- BatchKey, the grouping tuple `(bin_size, min_probes_per_bin,
preprocessing_method, downsize_to)` as built in `add_to_queue`. -/
abbrev BatchKey := Int × Int × String × String

/-- The aggregator state: `self.queue`, a dict from BatchKey to the list of
sentrix ids, in insertion order. -/
abbrev Queue := List (BatchKey × List String)

/-- One batch request as read by `add_to_queue` via `request.get(...)`:
the `sentrix_ids` entry may be absent (`None`), the other fields carry the
defaults 20, 50000, "illumina", "NO_DOWNSIZING" already applied by `get`. -/
structure Request where
  sentrix_ids : Option String
  min_probes_per_bin : Int := 20
  bin_size : Int := 50000
  preprocessing_method : String := "illumina"
  downsize_to : String := "NO_DOWNSIZING"
deriving Repr, DecidableEq

/-- The key tuple built inside `add_to_queue`. -/
def Request.key (r : Request) : BatchKey :=
  (r.bin_size, r.min_probes_per_bin, r.preprocessing_method, r.downsize_to)

/-- Python `str.lower()` on the method names (all ASCII), stated on the
character list so that it evaluates by kernel reduction. -/
def strLower (s : String) : String := ⟨s.data.map Char.toLower⟩

/-- `self.queue[key].append(id)` on a defaultdict: append to the (unique)
entry with this key, or create a new entry at the end. -/
def appendToKey : Queue → BatchKey → String → Queue
  | [], k, id => [(k, [id])]
  | e :: rest, k, id =>
      if e.1 = k then (e.1, e.2 ++ [id]) :: rest
      else e :: appendToKey rest k id

/-- `del self.queue[key]`: remove the (unique) entry with this key. -/
def eraseKey : Queue → BatchKey → Queue
  | [], _ => []
  | e :: rest, k => if e.1 = k then rest else e :: eraseKey rest k

/-- `self.queue[key] = v` for a key already present: replace the value of
the (unique) entry with this key, keeping its position. -/
def updateKey : Queue → BatchKey → List String → Queue
  | [], _, _ => []
  | e :: rest, k, v => if e.1 = k then (e.1, v) :: rest else e :: updateKey rest k v

/-- Dict lookup: value stored under a key, if present. -/
def lookupKey (q : Queue) (k : BatchKey) : Option (List String) :=
  (q.find? (fun e => e.1 = k)).map (fun e => e.2)

/-- `BatchRequestProcessor.add_to_queue`: for each request, read the fields
(with defaults) and, when a sentrix id is present, append it under the key
tuple.  Requests without a sentrix id are skipped. -/
def add_to_queue (q : Queue) (batch_requests : List Request) : Queue :=
  batch_requests.foldl
    (fun acc r =>
      match r.sentrix_ids with
      | none => acc
      | some sid => appendToKey acc r.key sid)
    q

/-- `BatchRequestProcessor.is_the_queue_empty`: `if not self.queue: return
False else: return True`. -/
def is_the_queue_empty (q : Queue) : Bool :=
  if q.isEmpty then false else true

/-- `BatchRequestProcessor.empty_queue`. -/
def empty_queue (_q : Queue) : Queue := []

/-- `BatchRequestProcessor.get_total_number_of_sentrix_ids`. -/
def get_total_number_of_sentrix_ids (q : Queue) : Nat :=
  (q.map (fun e => e.2.length)).sum

/-- `BatchRequestProcessor.get_highest_number_of_sentrix_ids`:
`max((len(batch) for batch in queue.values()), default=0)`. -/
def get_highest_number_of_sentrix_ids (q : Queue) : Nat :=
  (q.map (fun e => e.2.length)).foldl max 0

/-- `BatchRequestProcessor.pop_exceeding_limit`: raises unless the limit is
a positive integer; otherwise pops the first entry whose id list has length
at least the limit, or returns None leaving the queue unchanged. -/
def pop_exceeding_limit (q : Queue) (limit : Int) :
    Except String (Option (BatchKey × List String) × Queue) :=
  if limit ≤ 0 then .error "Limit must be a positive integer."
  else
    match q.find? (fun e => limit ≤ (e.2.length : Int)) with
    | none => .ok (none, q)
    | some e => .ok (some e, eraseKey q e.1)

/-- `BatchRequestProcessor.pop_element_with_the_highest_number_of_sentrix_ids`:
None on an empty queue; otherwise take the first entry attaining the maximal
id-list length (Python `max` keeps the first maximal element) and pop it when
that length is positive. -/
def pop_element_with_the_highest_number_of_sentrix_ids (q : Queue) :
    Option (BatchKey × List String) × Queue :=
  if q.isEmpty then (none, q)
  else
    match q.find? (fun e => e.2.length = get_highest_number_of_sentrix_ids q) with
    | none => (none, q)
    | some e =>
        if 0 < e.2.length then (some e, eraseKey q e.1) else (none, q)

/-- `BatchRequestProcessor.split_and_return_command_if_exceeds_limit`:
raises unless the limit is a positive integer; otherwise finds the first
entry whose id list has length at least the limit, returns its first
`limit` ids (`sentrix_ids[:limit]`, list order), and stores the leftover
ids back under the key, deleting the key when the leftover is empty. -/
def split_and_return_command_if_exceeds_limit (q : Queue) (limit : Int) :
    Except String (Option (BatchKey × List String) × Queue) :=
  if limit ≤ 0 then .error "Limit must be a positive integer."
  else
    match q.find? (fun e => limit ≤ (e.2.length : Int)) with
    | none => .ok (none, q)
    | some e =>
        let return_ids := e.2.take limit.toNat
        let leftover_ids := e.2.drop limit.toNat
        if leftover_ids.isEmpty then
          .ok (some (e.1, return_ids), eraseKey q e.1)
        else
          .ok (some (e.1, return_ids), updateKey q e.1 leftover_ids)

/-! ## Cooldown (CQmanager/services/Cooldown.py)

The clock (`int(time.time())`) is passed explicitly as `now`. -/

/-- The `Cooldown` object: the configured interval and the
`endpoint_cooldowns` dict (insertion-ordered, unique keys). -/
structure Cooldown where
  cooldown_interval : Int
  endpoint_cooldowns : List (String × Int)
deriving Repr, DecidableEq

/-- Dict lookup `self.endpoint_cooldowns.get(name)`. -/
def Cooldown.lookup (c : Cooldown) (name : String) : Option Int :=
  (c.endpoint_cooldowns.find? (fun e => e.1 = name)).map (fun e => e.2)

/-- Dict assignment `self.endpoint_cooldowns[name] = v`. -/
def cooldownStore : List (String × Int) → String → Int → List (String × Int)
  | [], name, v => [(name, v)]
  | e :: rest, name, v =>
      if e.1 = name then (e.1, v) :: rest else e :: cooldownStore rest name v

/-- `Cooldown.is_on_cooldown`: an unknown endpoint is initialised to 0 and
reported as not on cooldown; a known endpoint is on cooldown while
`now - last < interval`.  Returns the answer and the updated object. -/
def Cooldown.is_on_cooldown (c : Cooldown) (now : Int) (name : String) :
    Bool × Cooldown :=
  match c.lookup name with
  | none =>
      (false, { c with endpoint_cooldowns := cooldownStore c.endpoint_cooldowns name 0 })
  | some last => (now - last < c.cooldown_interval, c)

/-- `Cooldown.update_last_request_time`: an unknown endpoint is initialised
to 0 and the function returns without recording `now`; a known endpoint is
stamped with the current time. -/
def Cooldown.update_last_request_time (c : Cooldown) (now : Int) (name : String) :
    Cooldown :=
  match c.lookup name with
  | none => { c with endpoint_cooldowns := cooldownStore c.endpoint_cooldowns name 0 }
  | some _ => { c with endpoint_cooldowns := cooldownStore c.endpoint_cooldowns name now }

/-- `Cooldown.return_remaining_time`: 0 for an unknown endpoint, otherwise
`max(0, interval - (now - last))`. -/
def Cooldown.return_remaining_time (c : Cooldown) (now : Int) (name : String) : Int :=
  match c.lookup name with
  | none => 0
  | some last => max 0 (c.cooldown_interval - (now - last))

/-! ## AnalysisTaskData (CQmanager/models/v1/AnalysisTaskData.py)

`AnalysisTaskData.__new__` receives a task dict and returns a validated
dict or raises ValueError.  The required keys (`bin_size`,
`min_probes_per_bin`, `preprocessing_method`, `sentrix_id`) are modelled as
present and integer-typed fields; `downsize_to` is optional.  The valid
enums `PreprocessingMethods.members_list()` and
`CommonArrayType.members_list()` come from the external
cnquant_dependencies package and are passed as parameters. -/

/-- The input task dict with its required keys present. -/
structure TaskInput where
  bin_size : Int
  min_probes_per_bin : Int
  preprocessing_method : String
  sentrix_id : String
  downsize_to : Option String := none
deriving Repr, DecidableEq

/-- The validated dict returned by `AnalysisTaskData.__new__`. -/
structure TaskDict where
  bin_size : Int
  min_probes_per_bin : Int
  downsize_to : String
  preprocessing_method : String
  sentrix_ids : String
deriving Repr, DecidableEq

/-- `AnalysisTaskData.__new__` after the key-presence check: absent
`downsize_to` defaults to "NO_DOWNSIZING", a present one must be a member
of the downsizing enum; `preprocessing_method` must be a member of the
preprocessing enum (checked as given, stored lowercased).  No range check
is performed on `bin_size` or `min_probes_per_bin` (they are only passed
through `int()`). -/
def analysisTaskData (valid_preprocessing_methods valid_downsizing_targets : List String)
    (t : TaskInput) : Except String TaskDict :=
  match t.downsize_to with
  | none =>
      if t.preprocessing_method ∈ valid_preprocessing_methods then
        .ok ⟨t.bin_size, t.min_probes_per_bin, "NO_DOWNSIZING",
             strLower t.preprocessing_method, t.sentrix_id⟩
      else .error ("Invalid preprocessing_method: " ++ t.preprocessing_method)
  | some d =>
      if d ∈ valid_downsizing_targets then
        if t.preprocessing_method ∈ valid_preprocessing_methods then
          .ok ⟨t.bin_size, t.min_probes_per_bin, d,
               strLower t.preprocessing_method, t.sentrix_id⟩
        else .error ("Invalid preprocessing_method: " ++ t.preprocessing_method)
      else .error ("Invalid downsize_to: " ++ d)

/-- The declarative constraints of the `CQsettings` endpoint model
(CQmanager/endpoint_models/CQsettings.py with the constants of
core/config.py): pydantic `Field(ge=1000, le=200000)` on `bin_size` and
`Field(ge=10, le=50)` on `min_probes_per_bin`, plus the field validators
for `sentrix_id` non-emptiness, preprocessing-method membership and
downsizing-target membership. -/
def cqsettingsAccepts (available_preprocessing_methods common_array_types : List String)
    (sentrix_id : String) (preprocessing_method : String) (downsize_to : String)
    (bin_size min_probes_per_bin : Int) : Bool :=
  decide (1 ≤ sentrix_id.length) &&
  decide (preprocessing_method ∈ available_preprocessing_methods) &&
  decide (downsize_to ∈ common_array_types) &&
  decide (1000 ≤ bin_size) && decide (bin_size ≤ 200000) &&
  decide (10 ≤ min_probes_per_bin) && decide (min_probes_per_bin ≤ 50)

/-! ## AnalysisManager dispatch loop (services/AnalysisManager.py,
`process_batch_task`)

One iteration of the `while self._running` body, after the sleep, as a
pure function of: the aggregator queue, the container count reported by
`docker_runner.check_running_CNV_containers` (-1 on error), the configured
maximum, the batch-size threshold `CQ_manager_batch_size`, the elapsed
time `time.time() - self.last_processed`, and the timeout threshold
`CQ_manager_batch_timeout`. -/

/-- Which path one dispatch-loop cycle took. -/
inductive DispatchAction where
  /-- `check_running_CNV_containers` returned -1: log and continue. -/
  | countError : DispatchAction
  /-- running containers at or above the configured maximum: continue. -/
  | atCapacity : DispatchAction
  /-- size policy: a batch split off at the batch-size threshold. -/
  | sizePolicy (cmd : BatchKey × List String) : DispatchAction
  /-- size branch taken but the split returned None: continue. -/
  | sizePolicyNoCommand : DispatchAction
  /-- timeout policy: the largest batch popped whole. -/
  | timeoutPolicy (cmd : BatchKey × List String) : DispatchAction
  /-- timeout branch taken but the pop returned None: continue. -/
  | timeoutPolicyNoCommand : DispatchAction
  /-- neither policy fired: continue. -/
  | noBatch : DispatchAction
  /-- a ValueError escaped the cycle (only possible with a non-positive
  batch-size threshold). -/
  | raised : DispatchAction
deriving Repr, DecidableEq

/-- The outcome of one dispatch-loop cycle: the path taken, the aggregator
queue afterwards, and the batch handed to
`docker_runner.start_analysis_container` (none if no container started). -/
structure CycleResult where
  action : DispatchAction
  queue : Queue
  launched : Option (BatchKey × List String)
deriving Repr, DecidableEq

/-- One cycle of `AnalysisManager.process_batch_task` (with the default
`turned_off = False`): the -1 error sentinel and the capacity ceiling are
checked before any policy; then the size policy
(`get_highest_number_of_sentrix_ids() >= CQ_manager_batch_size`, a
`split_and_return_command_if_exceeds_limit`) takes precedence over the
timeout policy (`get_highest_number_of_sentrix_ids() > 0 and time_elapsed
>= CQ_manager_batch_timeout`, a
`pop_element_with_the_highest_number_of_sentrix_ids`); a container is
started exactly when a command dictionary was produced. -/
def process_batch_cycle (q : Queue) (runningCount maxContainers : Int)
    (batchSize : Int) (timeElapsed batchTimeout : Int) : CycleResult :=
  if runningCount = -1 then ⟨.countError, q, none⟩
  else if maxContainers ≤ runningCount then ⟨.atCapacity, q, none⟩
  else if batchSize ≤ (get_highest_number_of_sentrix_ids q : Int) then
    match split_and_return_command_if_exceeds_limit q batchSize with
    | .error _ => ⟨.raised, q, none⟩
    | .ok (none, q2) => ⟨.sizePolicyNoCommand, q2, none⟩
    | .ok (some cmd, q2) => ⟨.sizePolicy cmd, q2, some cmd⟩
  else if 0 < get_highest_number_of_sentrix_ids q ∧ batchTimeout ≤ timeElapsed then
    match pop_element_with_the_highest_number_of_sentrix_ids q with
    | (none, q2) => ⟨.timeoutPolicyNoCommand, q2, none⟩
    | (some cmd, q2) => ⟨.timeoutPolicy cmd, q2, some cmd⟩
  else ⟨.noBatch, q, none⟩

/-! ## AnalysisManager reconciliation loop (services/AnalysisManager.py,
`process_not_ready_data`)

One pass of the `while self.check_for_not_ready_data` body.  The deferred
map `unique_sentrix_ids_to_analyze_with_downsizing` maps a settings tuple
`(preprocessing_method, bin_size, min_probes_per_bin)` to a set of sentrix
ids (embedded as a list).  The externally read on-disk state is abstracted
as an environment: the parsed base (non-downsized) status json of a sample
(`none` while the status file does not exist, otherwise its optional
`array_type` field), existence of the per-target status files, the valid
array types and the downsizing-target catalog
`CommonArrayType.available_downsizing_targets`. -/

/-- Settings tuple of the deferred map. -/
abbrev Settings := String × Int × Int

/-- The externally observable on-disk state and the enum catalogs consulted
by `process_not_ready_data`. -/
structure ReconEnv where
  /-- `none`: the base status json file does not exist; `some det`: it
  exists and `det` is its `array_type` field (absent = `none`). -/
  baseStatus : String → Option (Option String)
  /-- does the status file for a given sample and downsizing target exist? -/
  targetStatusExists : String → String → Bool
  /-- `[t.value for t in ArrayType.valid_array_types()]`. -/
  validArrayTypes : List String
  /-- `CommonArrayType.available_downsizing_targets(array_type).value` list. -/
  availableDownsizingTargets : String → List String

/-- The batch request that `process_not_ready_data` builds via
`AnalysisTaskData` for one sample and one downsizing target: the
constructor stores the sentrix id under `sentrix_ids`, lowercases the
preprocessing method and passes the numeric fields through. -/
def reconRequest (settings : Settings) (sid : String) (target : String) : Request :=
  { sentrix_ids := some sid
    min_probes_per_bin := settings.2.2
    bin_size := settings.2.1
    preprocessing_method := strLower settings.1
    downsize_to := target }

/-- Processing of one deferred sample inside one settings pass: the batch
requests it adds and whether it gets marked for removal.  No status file:
nothing happens.  A valid detected array type: one request per downsizing
target whose status file does not exist, and the sample is marked for
removal iff some target status file already exists.  A missing or invalid
detected type: the sample is marked for removal. -/
def processSample (env : ReconEnv) (settings : Settings) (sid : String) :
    List Request × Bool :=
  match env.baseStatus sid with
  | none => ([], false)
  | some det =>
      match det with
      | some t =>
          if t ∈ env.validArrayTypes then
            ((env.availableDownsizingTargets t).filterMap
              (fun tgt =>
                if env.targetStatusExists sid tgt then none
                else some (reconRequest settings sid tgt)),
             (env.availableDownsizingTargets t).any
               (fun tgt => env.targetStatusExists sid tgt))
          else ([], true)
      | none => ([], true)

/-- One settings entry of a reconciliation pass: walk the sample ids in
order, adding each sample's requests to the aggregator and collecting
`sentrix_ids_to_remove`; afterwards the removal set is subtracted from the
entry.  Returns the remaining ids and the updated aggregator queue. -/
def processSettingsPass (env : ReconEnv) (settings : Settings)
    (ids : List String) (q : Queue) : List String × Queue :=
  let folded :=
    ids.foldl
      (fun (acc : List String × Queue) sid =>
        let step := processSample env settings sid
        (acc.1 ++ (if step.2 then [sid] else []), add_to_queue acc.2 step.1))
      ([], q)
  (ids.filter (fun sid => sid ∉ folded.1), folded.2)

/-- One full pass of `process_not_ready_data` over the deferred map: every
settings entry is processed in order against the shared aggregator queue.
Keys are kept (the loop only subtracts from the value sets, it never
deletes a key). -/
def process_not_ready_data_pass (env : ReconEnv)
    (deferred : List (Settings × List String)) (q : Queue) :
    List (Settings × List String) × Queue :=
  deferred.foldl
    (fun (acc : List (Settings × List String) × Queue) entry =>
      let r := processSettingsPass env entry.1 entry.2 acc.2
      (acc.1 ++ [(entry.1, r.1)], r.2))
    ([], q)

/-! ## Derived notions used by the statements -/

/-- A sample id is recorded under a key somewhere in the aggregator. -/
def queueContains (q : Queue) (k : BatchKey) (id : String) : Prop :=
  ∃ e ∈ q, e.1 = k ∧ id ∈ e.2

instance (q : Queue) (k : BatchKey) (id : String) : Decidable (queueContains q k id) := by
  unfold queueContains; infer_instance

/-- Aggregator states reachable from the fresh `BatchRequestProcessor()` by
the public operations (the raising calls that leave the state unchanged add
no new states). -/
inductive Reachable : Queue → Prop where
  | start : Reachable []
  | add (q : Queue) (rs : List Request) : Reachable q → Reachable (add_to_queue q rs)
  | popEx (q : Queue) (limit : Int) (res : Option (BatchKey × List String)) (q2 : Queue) :
      Reachable q → pop_exceeding_limit q limit = .ok (res, q2) → Reachable q2
  | popLargest (q : Queue) : Reachable q →
      Reachable (pop_element_with_the_highest_number_of_sentrix_ids q).2
  | split (q : Queue) (limit : Int) (res : Option (BatchKey × List String)) (q2 : Queue) :
      Reachable q → split_and_return_command_if_exceeds_limit q limit = .ok (res, q2) →
      Reachable q2
  | clear (q : Queue) : Reachable q → Reachable (empty_queue q)

/-- Concrete reconciliation environment: one sample "S" whose base status
json exists and reports the valid detected array type "T", one available
downsizing target "D" for "T", and no target status file on disk yet. -/
def reconEnvC1 : ReconEnv :=
  { baseStatus := fun s => if s = "S" then some (some "T") else none
    targetStatusExists := fun _ _ => false
    validArrayTypes := ["T"]
    availableDownsizingTargets := fun t => if t = "T" then ["D"] else [] }

/-- Concrete deferred map holding the sample "S" under one settings tuple. -/
def deferredC1 : List (Settings × List String) := [(("illumina", 50000, 20), ["S"])]

/-! ## Basic lemmas about the aggregator operations -/

theorem total_appendToKey (q : Queue) (k : BatchKey) (id : String) :
    get_total_number_of_sentrix_ids (appendToKey q k id)
      = get_total_number_of_sentrix_ids q + 1 := by
  induction q with
  | nil => simp [appendToKey, get_total_number_of_sentrix_ids]
  | cons e rest ih =>
      by_cases h : e.1 = k
      · simp [appendToKey, h, get_total_number_of_sentrix_ids]
        omega
      · simp only [appendToKey, if_neg h, get_total_number_of_sentrix_ids,
          List.map_cons, List.sum_cons] at ih ⊢
        omega

theorem lookup_cooldownStore (m : List (String × Int)) (name : String) (v : Int) :
    ((cooldownStore m name v).find? (fun e => e.1 = name)).map (fun e => e.2)
      = some v := by
  induction m with
  | nil => simp [cooldownStore, List.find?]
  | cons e rest ih =>
      by_cases h : e.1 = name
      · simp [cooldownStore, h, List.find?]
      · simp only [cooldownStore, if_neg h]
        rw [List.find?_cons_of_neg]
        · exact ih
        · simpa using h

theorem lookupKey_eq_none_of_not_mem (q : Queue) (k : BatchKey)
    (h : k ∉ q.map Prod.fst) : lookupKey q k = none := by
  induction q with
  | nil => rfl
  | cons e rest ih =>
      simp only [List.map_cons, List.mem_cons] at h
      push_neg at h
      unfold lookupKey
      rw [List.find?_cons_of_neg]
      · exact ih h.2
      · simp [Ne.symm h.1]

theorem lookupKey_eraseKey_of_nodup (q : Queue) (k : BatchKey)
    (h : (q.map Prod.fst).Nodup) : lookupKey (eraseKey q k) k = none := by
  induction q with
  | nil => rfl
  | cons e rest ih =>
      simp only [List.map_cons, List.nodup_cons] at h
      by_cases he : e.1 = k
      · simp only [eraseKey, if_pos he]
        exact lookupKey_eq_none_of_not_mem rest k (he ▸ h.1)
      · simp only [eraseKey, if_neg he]
        unfold lookupKey
        rw [List.find?_cons_of_neg]
        · exact ih h.2
        · simp [he]

theorem lookupKey_updateKey_self (q : Queue) (k : BatchKey) (v : List String)
    (hmem : k ∈ q.map Prod.fst) : lookupKey (updateKey q k v) k = some v := by
  induction q with
  | nil => simp at hmem
  | cons e rest ih =>
      simp only [List.map_cons, List.mem_cons] at hmem
      by_cases he : e.1 = k
      · simp [updateKey, he, lookupKey, List.find?]
      · simp only [updateKey, if_neg he]
        unfold lookupKey
        rw [List.find?_cons_of_neg]
        · exact ih (hmem.resolve_left (fun hk => he hk.symm))
        · simp [he]

theorem mem_of_mem_eraseKey (q : Queue) (k : BatchKey) (e : BatchKey × List String)
    (h : e ∈ eraseKey q k) : e ∈ q := by
  induction q with
  | nil => simp [eraseKey] at h
  | cons f rest ih =>
      by_cases hf : f.1 = k
      · simp only [eraseKey, if_pos hf] at h
        exact List.mem_cons_of_mem _ h
      · simp only [eraseKey, if_neg hf, List.mem_cons] at h ⊢
        exact h.imp id ih

theorem mem_updateKey (q : Queue) (k : BatchKey) (v : List String)
    (e : BatchKey × List String) (h : e ∈ updateKey q k v) : e ∈ q ∨ e.2 = v := by
  induction q with
  | nil => simp [updateKey] at h
  | cons f rest ih =>
      by_cases hf : f.1 = k
      · simp only [updateKey, if_pos hf, List.mem_cons] at h
        rcases h with rfl | h
        · right; rfl
        · left; exact List.mem_cons_of_mem _ h
      · simp only [updateKey, if_neg hf, List.mem_cons] at h
        rcases h with rfl | h
        · left; exact List.mem_cons_self _ _
        · exact (ih h).imp (List.mem_cons_of_mem _) id

theorem mem_appendToKey (q : Queue) (k : BatchKey) (sid : String)
    (e : BatchKey × List String) (h : e ∈ appendToKey q k sid) :
    e ∈ q ∨ ∃ v, e = (k, v ++ [sid]) := by
  induction q with
  | nil =>
      simp only [appendToKey, List.mem_singleton] at h
      exact Or.inr ⟨[], by simpa using h⟩
  | cons f rest ih =>
      by_cases hf : f.1 = k
      · simp only [appendToKey, if_pos hf, List.mem_cons] at h
        rcases h with rfl | h
        · exact Or.inr ⟨f.2, by rw [hf]⟩
        · exact Or.inl (List.mem_cons_of_mem _ h)
      · simp only [appendToKey, if_neg hf, List.mem_cons] at h
        rcases h with rfl | h
        · exact Or.inl (List.mem_cons_self _ _)
        · exact (ih h).imp (List.mem_cons_of_mem _) id

theorem entries_nonempty_appendToKey (q : Queue) (k : BatchKey) (sid : String)
    (h : ∀ e ∈ q, e.2 ≠ []) : ∀ e ∈ appendToKey q k sid, e.2 ≠ [] := by
  intro e he
  rcases mem_appendToKey q k sid e he with h1 | ⟨v, rfl⟩
  · exact h e h1
  · simp

theorem entries_nonempty_add_to_queue (rs : List Request) (q : Queue)
    (h : ∀ e ∈ q, e.2 ≠ []) : ∀ e ∈ add_to_queue q rs, e.2 ≠ [] := by
  induction rs generalizing q with
  | nil => simpa [add_to_queue] using h
  | cons r rest ih =>
      simp only [add_to_queue, List.foldl_cons]
      cases hs : r.sentrix_ids with
      | none => simp only [hs]; exact ih q h
      | some sid => simp only [hs]; exact ih _ (entries_nonempty_appendToKey q r.key sid h)

theorem total_eraseKey (q : Queue) (k : BatchKey) (v : List String)
    (hmem : (k, v) ∈ q) (hnd : (q.map Prod.fst).Nodup) :
    get_total_number_of_sentrix_ids (eraseKey q k) + v.length
      = get_total_number_of_sentrix_ids q := by
  induction q with
  | nil => simp at hmem
  | cons e rest ih =>
      simp only [List.map_cons, List.nodup_cons] at hnd
      by_cases he : e.1 = k
      · have hev : e = (k, v) := by
          rcases List.mem_cons.mp hmem with h | h
          · exact h.symm
          · exact absurd (he ▸ List.mem_map_of_mem Prod.fst h) hnd.1
        subst hev
        simp [eraseKey, get_total_number_of_sentrix_ids]
        omega
      · have hmem2 : (k, v) ∈ rest := by
          rcases List.mem_cons.mp hmem with h | h
          · exact absurd (congrArg Prod.fst h.symm) he
          · exact h
        simp only [eraseKey, if_neg he, get_total_number_of_sentrix_ids,
          List.map_cons, List.sum_cons]
        have := ih hmem2 hnd.2
        simp only [get_total_number_of_sentrix_ids] at this
        omega

theorem total_updateKey (q : Queue) (k : BatchKey) (v v2 : List String)
    (hmem : (k, v) ∈ q) (hnd : (q.map Prod.fst).Nodup) :
    get_total_number_of_sentrix_ids (updateKey q k v2) + v.length
      = get_total_number_of_sentrix_ids q + v2.length := by
  induction q with
  | nil => simp at hmem
  | cons e rest ih =>
      simp only [List.map_cons, List.nodup_cons] at hnd
      by_cases he : e.1 = k
      · have hev : e = (k, v) := by
          rcases List.mem_cons.mp hmem with h | h
          · exact h.symm
          · exact absurd (he ▸ List.mem_map_of_mem Prod.fst h) hnd.1
        subst hev
        simp [updateKey, get_total_number_of_sentrix_ids]
        omega
      · have hmem2 : (k, v) ∈ rest := by
          rcases List.mem_cons.mp hmem with h | h
          · exact absurd (congrArg Prod.fst h.symm) he
          · exact h
        simp only [updateKey, if_neg he, get_total_number_of_sentrix_ids,
          List.map_cons, List.sum_cons]
        have := ih hmem2 hnd.2
        simp only [get_total_number_of_sentrix_ids] at this
        omega

/-! ## Claim theorems -/

/-- C10: `is_the_queue_empty` returns False exactly when the queue mapping
has no keys and True exactly when it has at least one key — it reports
non-emptiness, the opposite of what its name suggests. -/
theorem is_the_queue_empty_returns_nonemptiness (q : Queue) :
    (is_the_queue_empty q = false ↔ q = []) ∧
    (is_the_queue_empty q = true ↔ q ≠ []) := by
  cases q <;> simp [is_the_queue_empty]

/-- Instance of `is_the_queue_empty_returns_nonemptiness` at a concrete
one-entry queue. -/
theorem is_the_queue_empty_returns_nonemptiness_witness :
    (is_the_queue_empty [((50000, 20, "illumina", "NO_DOWNSIZING"), ["A"])] = false ↔
      ([((50000, 20, "illumina", "NO_DOWNSIZING"), ["A"])] : Queue) = []) ∧
    (is_the_queue_empty [((50000, 20, "illumina", "NO_DOWNSIZING"), ["A"])] = true ↔
      ([((50000, 20, "illumina", "NO_DOWNSIZING"), ["A"])] : Queue) ≠ []) :=
  is_the_queue_empty_returns_nonemptiness _

/-- C2 counterexample: adding the same unit task a second time is not a
no-op — the sample id is appended again under its key, and the pending
total counts it twice rather than collapsing the duplicate. -/
theorem add_duplicate_pair_not_noop :
    add_to_queue (add_to_queue [] [{ sentrix_ids := some "A" }])
        [{ sentrix_ids := some "A" }]
      ≠ add_to_queue [] [{ sentrix_ids := some "A" }] ∧
    get_total_number_of_sentrix_ids
      (add_to_queue (add_to_queue [] [{ sentrix_ids := some "A" }])
        [{ sentrix_ids := some "A" }]) = 2 := by
  decide

/-- C2 amended: `add_to_queue` appends unconditionally, so after any
sequence of adds the pending total equals the number of submitted requests
that carried a sentrix id, counted with multiplicity (duplicates of a
(BatchKey, sample_id) pair are appended again, not collapsed). -/
theorem add_to_queue_total_counts_multiplicity (q : Queue) (rs : List Request) :
    get_total_number_of_sentrix_ids (add_to_queue q rs)
      = get_total_number_of_sentrix_ids q
        + rs.countP (fun r => r.sentrix_ids.isSome) := by
  induction rs generalizing q with
  | nil => simp [add_to_queue]
  | cons r rest ih =>
      simp only [add_to_queue, List.foldl_cons] at ih ⊢
      cases h : r.sentrix_ids with
      | none => simp [h, ih, List.countP_cons]
      | some sid =>
          rw [List.countP_cons]
          simp only [h]
          rw [ih, total_appendToKey]
          simp [Option.isSome]
          omega

/-- C3 counterexample: for a name never seen before,
`update_last_request_time` stores 0 instead of the current time, so the
name is not on cooldown immediately afterwards (at time 100 with interval
10) and the remaining time is 0, not the interval. -/
theorem cooldown_fresh_name_counterexample :
    ((Cooldown.update_last_request_time ⟨10, []⟩ 100 "x").is_on_cooldown 100 "x").1
      = false ∧
    (Cooldown.update_last_request_time ⟨10, []⟩ 100 "x").return_remaining_time 100 "x"
      = 0 := by
  decide

/-- C3 amended: `update_last_request_time` records the current time only
for a name already present in the cooldown map; for such a name the
limiter is on cooldown immediately afterwards (for a positive interval),
the remaining time equals the interval, and after the interval has elapsed
it is no longer on cooldown.  For a name never seen before the call merely
initialises the record to 0. -/
theorem cooldown_mark_known_records_now (c : Cooldown) (now : Int) (name : String) :
    ((∃ last, c.lookup name = some last) → 0 < c.cooldown_interval →
      ((c.update_last_request_time now name).is_on_cooldown now name).1 = true ∧
      (c.update_last_request_time now name).return_remaining_time now name
        = c.cooldown_interval ∧
      ((c.update_last_request_time now name).is_on_cooldown
          (now + c.cooldown_interval) name).1 = false) ∧
    (c.lookup name = none →
      (c.update_last_request_time now name).lookup name = some 0) := by
  constructor
  · rintro ⟨last, hlast⟩ hpos
    have hupd : c.update_last_request_time now name
        = { c with endpoint_cooldowns := cooldownStore c.endpoint_cooldowns name now } := by
      unfold Cooldown.update_last_request_time
      rw [hlast]
    have hlook : (c.update_last_request_time now name).lookup name = some now := by
      rw [hupd]
      unfold Cooldown.lookup
      exact lookup_cooldownStore _ _ _
    have hint : (c.update_last_request_time now name).cooldown_interval
        = c.cooldown_interval := by rw [hupd]
    refine ⟨?_, ?_, ?_⟩
    · unfold Cooldown.is_on_cooldown
      rw [hlook]
      simp [hint, hpos]
    · unfold Cooldown.return_remaining_time
      rw [hlook, hint]
      simp
      omega
    · unfold Cooldown.is_on_cooldown
      rw [hlook]
      simp [hint]
  · intro hnone
    unfold Cooldown.update_last_request_time
    rw [hnone]
    unfold Cooldown.lookup
    exact lookup_cooldownStore _ _ _

/-- Instance of `cooldown_mark_known_records_now`: a known name ("x",
previously stamped 3) is on cooldown right after being marked at time 100
with interval 10, has remaining time 10, and is off cooldown at time
100 + 10; a fresh name ("y") gets the record 0. -/
theorem cooldown_mark_known_records_now_witness :
    (((Cooldown.update_last_request_time ⟨10, [("x", 3)]⟩ 100 "x").is_on_cooldown
        100 "x").1 = true ∧
      (Cooldown.update_last_request_time ⟨10, [("x", 3)]⟩ 100 "x").return_remaining_time
        100 "x" = 10 ∧
      ((Cooldown.update_last_request_time ⟨10, [("x", 3)]⟩ 100 "x").is_on_cooldown
        (100 + 10) "x").1 = false) ∧
    (Cooldown.update_last_request_time ⟨10, []⟩ 100 "y").lookup "y" = some 0 :=
  ⟨(cooldown_mark_known_records_now ⟨10, [("x", 3)]⟩ 100 "x").1 ⟨3, by decide⟩
      (by decide),
   (cooldown_mark_known_records_now ⟨10, []⟩ 100 "y").2 rfl⟩

/-- C8 counterexample: `AnalysisTaskData` performs no range validation —
construction succeeds for `bin_size = 500` even though 500 lies outside
the configured range `[ge_bin_size, le_bin_size] = [1000, 200000]`
enforced only by the CQsettings endpoint model. -/
theorem analysisTaskData_no_range_check_counterexample :
    analysisTaskData ["illumina", "swan", "noob"]
        ["NO_DOWNSIZING", "EPIC_v2_EPIC_v1_to_HM450K"]
        { bin_size := 500, min_probes_per_bin := 20,
          preprocessing_method := "illumina", sentrix_id := "A" }
      = .ok ⟨500, 20, "NO_DOWNSIZING", "illumina", "A"⟩ ∧
    ¬ (1000 ≤ (500 : Int)) := by
  constructor
  · simp [analysisTaskData]
    decide
  · decide

/-- C8 amended: `AnalysisTaskData` construction succeeds exactly when the
preprocessing method is in its enum and the (optional, defaulting)
downsizing target is in its enum; `bin_size` and `min_probes_per_bin` are
not range-checked there — the `[ge, le]` bounds are enforced by the
separate `CQsettings` endpoint model. -/
theorem analysisTaskData_validates_enums_only
    (methods targets : List String) (t : TaskInput) :
    (∃ d, analysisTaskData methods targets t = .ok d) ↔
      (t.preprocessing_method ∈ methods ∧
        ∀ d, t.downsize_to = some d → d ∈ targets) := by
  unfold analysisTaskData
  cases hd : t.downsize_to with
  | none =>
      by_cases hp : t.preprocessing_method ∈ methods <;> simp [hp]
  | some d =>
      by_cases ht : d ∈ targets <;>
        by_cases hp : t.preprocessing_method ∈ methods <;>
          simp [ht, hp]

/-- Instance of `analysisTaskData_validates_enums_only` at a concrete
in-enum input. -/
theorem analysisTaskData_validates_enums_only_witness :
    (∃ d, analysisTaskData ["illumina"] ["D"]
        ⟨50000, 20, "illumina", "A", some "D"⟩ = .ok d) ↔
      ("illumina" ∈ ["illumina"] ∧
        ∀ d, (some "D" : Option String) = some d → d ∈ ["D"]) :=
  analysisTaskData_validates_enums_only ["illumina"] ["D"] _

/-- C7: `pop_exceeding_limit` raises exactly when the limit is not
positive (the raise happens before any mutation, so the pure model has no
changed state to return); for a positive limit it pops the first entry, in
insertion order, whose id list has length at least the limit — that key is
then absent from the map and the returned list has length at least the
limit — and it returns None with the aggregator unchanged when no entry
qualifies. -/
theorem pop_exceeding_limit_spec (q : Queue) (limit : Int) :
    ((∃ msg, pop_exceeding_limit q limit = .error msg) ↔ limit ≤ 0) ∧
    (∀ k v, 0 < limit →
      q.find? (fun e => limit ≤ (e.2.length : Int)) = some (k, v) →
      pop_exceeding_limit q limit = .ok (some (k, v), eraseKey q k) ∧
      limit ≤ (v.length : Int) ∧
      ((q.map Prod.fst).Nodup → lookupKey (eraseKey q k) k = none)) ∧
    (0 < limit → q.find? (fun e => limit ≤ (e.2.length : Int)) = none →
      pop_exceeding_limit q limit = .ok (none, q)) := by
  refine ⟨⟨?_, ?_⟩, ?_, ?_⟩
  · rintro ⟨msg, hmsg⟩
    by_contra h
    push_neg at h
    unfold pop_exceeding_limit at hmsg
    rw [if_neg (not_le.mpr h)] at hmsg
    cases hfind : q.find? (fun e => limit ≤ (e.2.length : Int)) <;>
      rw [hfind] at hmsg <;> simp at hmsg
  · intro hle
    exact ⟨_, by unfold pop_exceeding_limit; rw [if_pos hle]⟩
  · intro k v hpos hfind
    have hp := List.find?_some hfind
    simp only [decide_eq_true_eq] at hp
    refine ⟨?_, hp, ?_⟩
    · unfold pop_exceeding_limit
      rw [if_neg (not_le.mpr hpos), hfind]
    · intro hnd
      exact lookupKey_eraseKey_of_nodup q k hnd
  · intro hpos hfind
    unfold pop_exceeding_limit
    rw [if_neg (not_le.mpr hpos), hfind]

/-- Instance of `pop_exceeding_limit_spec` at a concrete one-entry queue
with limit 1. -/
theorem pop_exceeding_limit_spec_witness :
    pop_exceeding_limit [((50000, 20, "illumina", "NO_DOWNSIZING"), ["a"])] 1
        = .ok (some ((50000, 20, "illumina", "NO_DOWNSIZING"), ["a"]),
            eraseKey [((50000, 20, "illumina", "NO_DOWNSIZING"), ["a"])]
              (50000, 20, "illumina", "NO_DOWNSIZING")) ∧
    (1 : Int) ≤ ((["a"] : List String).length : Int) ∧
    ((([((50000, 20, "illumina", "NO_DOWNSIZING"), ["a"])] : Queue).map
        Prod.fst).Nodup →
      lookupKey
        (eraseKey [((50000, 20, "illumina", "NO_DOWNSIZING"), ["a"])]
          (50000, 20, "illumina", "NO_DOWNSIZING"))
        (50000, 20, "illumina", "NO_DOWNSIZING") = none) :=
  (pop_exceeding_limit_spec _ 1).2.1 _ _ (by decide) (by decide)

/-- C4 counterexample: split takes the first `limit` ids in stored
(insertion) order, not in sorted order — on the entry ["b", "a"] with
limit 1 it returns "b" and leaves "a" behind although "a" sorts first, so
the returned list differs from the sorted prefix ["a"]. -/
theorem split_not_sorted_counterexample :
    split_and_return_command_if_exceeds_limit
        [((50000, 20, "illumina", "NO_DOWNSIZING"), ["b", "a"])] 1
      = .ok (some ((50000, 20, "illumina", "NO_DOWNSIZING"), ["b"]),
             [((50000, 20, "illumina", "NO_DOWNSIZING"), ["a"])]) ∧
    (["b"] : List String) ≠ ["a"] := by
  exact ⟨rfl, by decide⟩

/-- C4 amended: for a positive limit, on the first entry whose id list has
length at least the limit, split removes and returns exactly `limit` ids
taken in insertion order (a prefix of the stored list, not sorted order),
leaves the remaining ids under the key (deleting the key when the entry
had exactly `limit` ids), the returned and remaining ids concatenate back
to the original list (partition: no overlap, no loss), and the pending
total drops by exactly `limit`. -/
theorem split_off_conservation (q : Queue) (limit : Int) (k : BatchKey)
    (v : List String) (hpos : 0 < limit) (hnd : (q.map Prod.fst).Nodup)
    (hfind : q.find? (fun e => limit ≤ (e.2.length : Int)) = some (k, v)) :
    ∃ q2, split_and_return_command_if_exceeds_limit q limit
        = .ok (some (k, v.take limit.toNat), q2) ∧
      (v.take limit.toNat).length = limit.toNat ∧
      v.take limit.toNat ++ v.drop limit.toNat = v ∧
      lookupKey q2 k = (if v.length = limit.toNat then none
                        else some (v.drop limit.toNat)) ∧
      get_total_number_of_sentrix_ids q2 + limit.toNat
        = get_total_number_of_sentrix_ids q := by
  have hp := List.find?_some hfind
  simp only [decide_eq_true_eq] at hp
  have hmem := List.mem_of_find?_eq_some hfind
  have hlen : limit.toNat ≤ v.length := Int.toNat_le.mpr hp
  have htake : (v.take limit.toNat).length = limit.toNat := by
    simp [List.length_take, Nat.min_eq_left hlen]
  unfold split_and_return_command_if_exceeds_limit
  rw [if_neg (not_le.mpr hpos), hfind]
  by_cases hempty : (v.drop limit.toNat).isEmpty
  · have hdropnil : v.drop limit.toNat = [] := by
      cases hd : v.drop limit.toNat with
      | nil => rfl
      | cons a l => rw [hd] at hempty; simp [List.isEmpty] at hempty
    have hveq : v.length = limit.toNat := by
      have := congrArg List.length hdropnil
      simp [List.length_drop] at this
      omega
    refine ⟨eraseKey q k, ?_, htake, ?_, ?_, ?_⟩
    · simp only [hempty]
      rfl
    · exact List.take_append_drop _ v
    · rw [if_pos hveq]
      exact lookupKey_eraseKey_of_nodup q k hnd
    · have := total_eraseKey q k v hmem hnd
      omega
  · have hdropne : v.drop limit.toNat ≠ [] := by
      intro hnil
      apply hempty
      rw [hnil]
      rfl
    have hvne : v.length ≠ limit.toNat := by
      intro hveq
      apply hdropne
      apply List.eq_nil_of_length_eq_zero
      simp [List.length_drop]
      omega
    refine ⟨updateKey q k (v.drop limit.toNat), ?_, htake, ?_, ?_, ?_⟩
    · simp only [Bool.not_eq_true] at hempty
      simp only [hempty]
      rfl
    · exact List.take_append_drop _ v
    · rw [if_neg hvne]
      exact lookupKey_updateKey_self q k _ (List.mem_map_of_mem Prod.fst hmem)
    · have := total_updateKey q k v (v.drop limit.toNat) hmem hnd
      simp only [List.length_drop] at this
      omega

/-- Instance of `split_off_conservation` on a two-id entry with limit 1. -/
theorem split_off_conservation_witness :
    ∃ q2, split_and_return_command_if_exceeds_limit
        [((50000, 20, "illumina", "NO_DOWNSIZING"), ["a", "b"])] 1
        = .ok (some ((50000, 20, "illumina", "NO_DOWNSIZING"),
              (["a", "b"] : List String).take (1 : Int).toNat), q2) ∧
      ((["a", "b"] : List String).take (1 : Int).toNat).length = (1 : Int).toNat ∧
      (["a", "b"] : List String).take (1 : Int).toNat
          ++ (["a", "b"] : List String).drop (1 : Int).toNat = ["a", "b"] ∧
      lookupKey q2 (50000, 20, "illumina", "NO_DOWNSIZING")
        = (if (["a", "b"] : List String).length = (1 : Int).toNat then none
           else some ((["a", "b"] : List String).drop (1 : Int).toNat)) ∧
      get_total_number_of_sentrix_ids q2 + (1 : Int).toNat
        = get_total_number_of_sentrix_ids
            [((50000, 20, "illumina", "NO_DOWNSIZING"), ["a", "b"])] :=
  split_off_conservation _ 1 _ _ (by decide) (by decide) (by decide)

/-- C9: every aggregator state reachable from the fresh processor by add,
pop-exceeding-limit, pop-largest, split and clear has only non-empty
entries — an operation that empties an entry deletes its key rather than
leaving an empty entry behind. -/
theorem reachable_entries_nonempty (q : Queue) (h : Reachable q) :
    ∀ e ∈ q, e.2 ≠ [] := by
  induction h with
  | start => intro e he; simp at he
  | add q rs hr ih => exact entries_nonempty_add_to_queue rs q ih
  | popEx q limit res q2 hr heq ih =>
      unfold pop_exceeding_limit at heq
      split at heq
      · simp at heq
      · split at heq
        · simp only [Except.ok.injEq, Prod.mk.injEq] at heq
          obtain ⟨-, rfl⟩ := heq
          exact ih
        · simp only [Except.ok.injEq, Prod.mk.injEq] at heq
          obtain ⟨-, rfl⟩ := heq
          intro f hf
          exact ih f (mem_of_mem_eraseKey _ _ f hf)
  | popLargest q hr ih =>
      unfold pop_element_with_the_highest_number_of_sentrix_ids
      split
      · exact ih
      · split
        · exact ih
        · split
          · intro f hf
            exact ih f (mem_of_mem_eraseKey _ _ f hf)
          · exact ih
  | split q limit res q2 hr heq ih =>
      unfold split_and_return_command_if_exceeds_limit at heq
      split at heq
      · simp at heq
      · split at heq
        · simp only [Except.ok.injEq, Prod.mk.injEq] at heq
          obtain ⟨-, rfl⟩ := heq
          exact ih
        · dsimp only at heq
          split at heq
          · simp only [Except.ok.injEq, Prod.mk.injEq] at heq
            obtain ⟨-, rfl⟩ := heq
            intro f hf
            exact ih f (mem_of_mem_eraseKey _ _ f hf)
          · rename_i hne
            simp only [Except.ok.injEq, Prod.mk.injEq] at heq
            obtain ⟨-, rfl⟩ := heq
            intro f hf
            rcases mem_updateKey _ _ _ f hf with h1 | h2
            · exact ih f h1
            · rw [h2]
              intro hnil
              apply hne
              rw [hnil]
              rfl
  | clear q hr ih =>
      intro e he
      simp [empty_queue] at he

theorem queueContains_appendToKey_of (q : Queue) (k2 : BatchKey) (id2 : String)
    (k : BatchKey) (sid : String) (h : queueContains q k sid) :
    queueContains (appendToKey q k2 id2) k sid := by
  obtain ⟨e, he, hk, hid⟩ := h
  induction q with
  | nil => simp at he
  | cons f rest ih =>
      rcases List.mem_cons.mp he with rfl | h2
      · by_cases hf : e.1 = k2
        · simp only [appendToKey, if_pos hf]
          exact ⟨(e.1, e.2 ++ [id2]), List.mem_cons_self _ _, hk,
            List.mem_append_left _ hid⟩
        · simp only [appendToKey, if_neg hf]
          exact ⟨e, List.mem_cons_self _ _, hk, hid⟩
      · by_cases hf : f.1 = k2
        · simp only [appendToKey, if_pos hf]
          exact ⟨e, List.mem_cons_of_mem _ h2, hk, hid⟩
        · simp only [appendToKey, if_neg hf]
          obtain ⟨e2, he2, hk2, hid2⟩ := ih h2
          exact ⟨e2, List.mem_cons_of_mem _ he2, hk2, hid2⟩

theorem queueContains_appendToKey_self (q : Queue) (k : BatchKey) (sid : String) :
    queueContains (appendToKey q k sid) k sid := by
  induction q with
  | nil => exact ⟨(k, [sid]), List.mem_singleton.mpr rfl, rfl, List.mem_singleton.mpr rfl⟩
  | cons f rest ih =>
      by_cases hf : f.1 = k
      · simp only [appendToKey, if_pos hf]
        exact ⟨(f.1, f.2 ++ [sid]), List.mem_cons_self _ _, hf,
          List.mem_append_right _ (List.mem_singleton.mpr rfl)⟩
      · simp only [appendToKey, if_neg hf]
        obtain ⟨e2, he2, hk2, hid2⟩ := ih
        exact ⟨e2, List.mem_cons_of_mem _ he2, hk2, hid2⟩

theorem queueContains_add_to_queue_of (q : Queue) (rs : List Request)
    (k : BatchKey) (sid : String) (h : queueContains q k sid) :
    queueContains (add_to_queue q rs) k sid := by
  induction rs generalizing q with
  | nil => exact h
  | cons r rest ih =>
      simp only [add_to_queue, List.foldl_cons]
      cases hs : r.sentrix_ids with
      | none => simp only [hs]; exact ih q h
      | some s0 =>
          simp only [hs]
          exact ih _ (queueContains_appendToKey_of q r.key s0 k sid h)

theorem queueContains_add_to_queue_of_mem (q : Queue) (rs : List Request)
    (r : Request) (sid : String) (hr : r ∈ rs) (hs : r.sentrix_ids = some sid) :
    queueContains (add_to_queue q rs) r.key sid := by
  induction rs generalizing q with
  | nil => simp at hr
  | cons r0 rest ih =>
      simp only [add_to_queue, List.foldl_cons]
      rcases List.mem_cons.mp hr with rfl | hr2
      · rw [hs]
        exact queueContains_add_to_queue_of _ rest _ _
          (queueContains_appendToKey_self q r.key sid)
      · cases h0 : r0.sentrix_ids with
        | none => exact ih q hr2
        | some s0 => exact ih _ hr2

theorem settings_fold_fst (env : ReconEnv) (st : Settings) (ids : List String)
    (acc : List String) (q : Queue) :
    (ids.foldl
        (fun (acc : List String × Queue) sid =>
          ((acc.1 ++ (if (processSample env st sid).2 then [sid] else []) : List String),
           add_to_queue acc.2 (processSample env st sid).1))
        (acc, q)).1
      = acc ++ ids.filter (fun sid => (processSample env st sid).2) := by
  induction ids generalizing acc q with
  | nil => simp
  | cons a rest ih =>
      simp only [List.foldl_cons, List.filter_cons]
      by_cases ha : (processSample env st a).2
      · simp only [ha, if_pos]
        rw [ih]
        simp
      · simp only [Bool.not_eq_true] at ha
        simp only [ha]
        rw [ih]
        simp

theorem processSettingsPass_fst (env : ReconEnv) (st : Settings)
    (ids : List String) (q : Queue) :
    (processSettingsPass env st ids q).1
      = ids.filter (fun sid => !(processSample env st sid).2) := by
  unfold processSettingsPass
  simp only [settings_fold_fst, List.nil_append]
  apply List.filter_congr
  intro x hx
  simp [List.mem_filter, hx]

theorem settings_fold_contains_mono (env : ReconEnv) (st : Settings)
    (ids : List String) (acc : List String) (q : Queue) (k : BatchKey)
    (sid : String) (h : queueContains q k sid) :
    queueContains
      ((ids.foldl
        (fun (acc : List String × Queue) s =>
          ((acc.1 ++ (if (processSample env st s).2 then [s] else []) : List String),
           add_to_queue acc.2 (processSample env st s).1))
        (acc, q)).2) k sid := by
  induction ids generalizing acc q with
  | nil => exact h
  | cons a rest ih =>
      simp only [List.foldl_cons]
      exact ih _ _ (queueContains_add_to_queue_of _ _ _ _ h)

theorem settings_fold_contains_of_mem (env : ReconEnv) (st : Settings)
    (ids : List String) (acc : List String) (q : Queue) (sid : String)
    (r : Request) (s2 : String) (hsid : sid ∈ ids)
    (hr : r ∈ (processSample env st sid).1) (hs : r.sentrix_ids = some s2) :
    queueContains
      ((ids.foldl
        (fun (acc : List String × Queue) s =>
          ((acc.1 ++ (if (processSample env st s).2 then [s] else []) : List String),
           add_to_queue acc.2 (processSample env st s).1))
        (acc, q)).2) r.key s2 := by
  induction ids generalizing acc q with
  | nil => simp at hsid
  | cons a rest ih =>
      simp only [List.foldl_cons]
      rcases List.mem_cons.mp hsid with rfl | h2
      · exact settings_fold_contains_mono env st rest _ _ _ _
          (queueContains_add_to_queue_of_mem q _ r s2 hr hs)
      · apply ih
        exact h2

theorem processSettingsPass_contains_mono (env : ReconEnv) (st : Settings)
    (ids : List String) (q : Queue) (k : BatchKey) (sid : String)
    (h : queueContains q k sid) :
    queueContains (processSettingsPass env st ids q).2 k sid := by
  unfold processSettingsPass
  exact settings_fold_contains_mono env st ids [] q k sid h

theorem processSettingsPass_contains_of_mem (env : ReconEnv) (st : Settings)
    (ids : List String) (q : Queue) (sid : String) (r : Request) (s2 : String)
    (hsid : sid ∈ ids) (hr : r ∈ (processSample env st sid).1)
    (hs : r.sentrix_ids = some s2) :
    queueContains (processSettingsPass env st ids q).2 r.key s2 := by
  unfold processSettingsPass
  exact settings_fold_contains_of_mem env st ids [] q sid r s2 hsid hr hs

theorem pass_fold_fst (env : ReconEnv) (deferred : List (Settings × List String))
    (acc : List (Settings × List String)) (q : Queue) :
    (deferred.foldl
        (fun (acc : List (Settings × List String) × Queue) entry =>
          (acc.1 ++ [(entry.1, (processSettingsPass env entry.1 entry.2 acc.2).1)],
           (processSettingsPass env entry.1 entry.2 acc.2).2))
        (acc, q)).1
      = acc ++ deferred.map (fun entry =>
          (entry.1, entry.2.filter (fun s => !(processSample env entry.1 s).2))) := by
  induction deferred generalizing acc q with
  | nil => simp
  | cons entry rest ih =>
      simp only [List.foldl_cons, List.map_cons]
      rw [ih]
      simp [processSettingsPass_fst]

theorem process_not_ready_data_pass_fst (env : ReconEnv)
    (deferred : List (Settings × List String)) (q : Queue) :
    (process_not_ready_data_pass env deferred q).1
      = deferred.map (fun entry =>
          (entry.1, entry.2.filter (fun s => !(processSample env entry.1 s).2))) := by
  unfold process_not_ready_data_pass
  have h := pass_fold_fst env deferred [] q
  simpa using h

theorem pass_fold_contains_mono (env : ReconEnv)
    (deferred : List (Settings × List String))
    (acc : List (Settings × List String)) (q : Queue) (k : BatchKey)
    (sid : String) (h : queueContains q k sid) :
    queueContains
      ((deferred.foldl
        (fun (acc : List (Settings × List String) × Queue) entry =>
          (acc.1 ++ [(entry.1, (processSettingsPass env entry.1 entry.2 acc.2).1)],
           (processSettingsPass env entry.1 entry.2 acc.2).2))
        (acc, q)).2) k sid := by
  induction deferred generalizing acc q with
  | nil => exact h
  | cons entry rest ih =>
      simp only [List.foldl_cons]
      exact ih _ _ (processSettingsPass_contains_mono env entry.1 entry.2 q k sid h)

theorem pass_contains_of_mem (env : ReconEnv)
    (deferred : List (Settings × List String)) (q : Queue) (st : Settings)
    (ids : List String) (sid : String) (r : Request) (s2 : String)
    (hentry : (st, ids) ∈ deferred) (hsid : sid ∈ ids)
    (hr : r ∈ (processSample env st sid).1) (hs : r.sentrix_ids = some s2) :
    queueContains (process_not_ready_data_pass env deferred q).2 r.key s2 := by
  unfold process_not_ready_data_pass
  have main : ∀ (acc : List (Settings × List String)) (q0 : Queue),
      queueContains
        ((deferred.foldl
          (fun (acc : List (Settings × List String) × Queue) entry =>
            (acc.1 ++ [(entry.1, (processSettingsPass env entry.1 entry.2 acc.2).1)],
             (processSettingsPass env entry.1 entry.2 acc.2).2))
          (acc, q0)).2) r.key s2 := by
    induction deferred with
    | nil => simp at hentry
    | cons entry rest ih =>
        intro acc q0
        rcases List.mem_cons.mp hentry with heq | h2
        · simp only [List.foldl_cons]
          subst heq
          exact pass_fold_contains_mono env rest _ _ _ _
            (processSettingsPass_contains_of_mem env st ids q0 sid r s2 hsid hr hs)
        · simp only [List.foldl_cons]
          exact ih h2 _ _
  exact main [] q

theorem foldl_max_cases (l : List Nat) (b : Nat) :
    l.foldl max b = b ∨ l.foldl max b ∈ l := by
  induction l generalizing b with
  | nil => left; rfl
  | cons a l ih =>
      simp only [List.foldl_cons]
      rcases ih (max b a) with h | h
      · by_cases hba : b ≤ a
        · right
          rw [h, Nat.max_eq_right hba]
          exact List.mem_cons_self _ _
        · left
          rw [h, Nat.max_eq_left (Nat.le_of_not_le hba)]
      · right
        exact List.mem_cons_of_mem _ h

theorem exists_entry_of_le_highest (q : Queue) (n : Nat) (hn : 0 < n)
    (h : n ≤ get_highest_number_of_sentrix_ids q) :
    ∃ e ∈ q, n ≤ e.2.length := by
  unfold get_highest_number_of_sentrix_ids at h
  rcases foldl_max_cases (q.map fun e => e.2.length) 0 with hc | hc
  · rw [hc] at h
    omega
  · obtain ⟨e, he, hlen⟩ := List.mem_map.mp hc
    exact ⟨e, he, hlen ▸ h⟩

theorem split_returns_some_of_le_highest (q : Queue) (bs : Int) (hbs : 0 < bs)
    (hhi : bs ≤ (get_highest_number_of_sentrix_ids q : Int)) :
    ∃ cmd q2, split_and_return_command_if_exceeds_limit q bs
      = .ok (some cmd, q2) := by
  have hex : ∃ e ∈ q, bs ≤ (e.2.length : Int) := by
    obtain ⟨e, he, hlen⟩ := exists_entry_of_le_highest q bs.toNat (by omega) (by omega)
    exact ⟨e, he, by omega⟩
  have hfs : (q.find? (fun e => bs ≤ (e.2.length : Int))).isSome := by
    rw [List.find?_isSome]
    obtain ⟨e, he, hlen⟩ := hex
    exact ⟨e, he, by simpa using hlen⟩
  obtain ⟨e, hfind⟩ := Option.isSome_iff_exists.mp hfs
  unfold split_and_return_command_if_exceeds_limit
  rw [if_neg (not_le.mpr hbs), hfind]
  by_cases hie : (e.2.drop bs.toNat).isEmpty
  · exact ⟨(e.1, e.2.take bs.toNat), eraseKey q e.1, by simp only [hie]; rfl⟩
  · refine ⟨(e.1, e.2.take bs.toNat), updateKey q e.1 (e.2.drop bs.toNat), ?_⟩
    simp only [Bool.not_eq_true] at hie
    simp only [hie]
    rfl

/-- C5: in any dispatch cycle that reaches the policy stage (the container
count is not the error sentinel and is below the maximum), if the largest
group is at or above the batch-size threshold and the elapsed time is
simultaneously at or above the timeout threshold, the cycle applies the
size policy (a split at exactly the threshold, which is then launched) and
never the timeout policy; moreover, in every cycle whatsoever, the timeout
policy runs only when the size policy did not fire and some entry is
non-empty and the timeout has elapsed. -/
theorem dispatch_size_policy_precedence (q : Queue) (rc mx bs te bt : Int)
    (hbs : 0 < bs) :
    (rc ≠ -1 → rc < mx →
      bs ≤ (get_highest_number_of_sentrix_ids q : Int) → bt ≤ te →
      (∃ cmd, (process_batch_cycle q rc mx bs te bt).action = .sizePolicy cmd ∧
        (process_batch_cycle q rc mx bs te bt).launched = some cmd) ∧
      (∀ cmd, (process_batch_cycle q rc mx bs te bt).action
        ≠ .timeoutPolicy cmd)) ∧
    (∀ cmd, (process_batch_cycle q rc mx bs te bt).action = .timeoutPolicy cmd →
      (get_highest_number_of_sentrix_ids q : Int) < bs ∧
      0 < get_highest_number_of_sentrix_ids q ∧ bt ≤ te) := by
  constructor
  · intro hrc hmx hhi hte
    obtain ⟨cmd, q2, hsplit⟩ := split_returns_some_of_le_highest q bs hbs hhi
    have hcycle : process_batch_cycle q rc mx bs te bt
        = ⟨.sizePolicy cmd, q2, some cmd⟩ := by
      unfold process_batch_cycle
      rw [if_neg hrc, if_neg (not_le.mpr hmx), if_pos hhi, hsplit]
    rw [hcycle]
    exact ⟨⟨cmd, rfl, rfl⟩, by intro cmd2 hcmd; simp at hcmd⟩
  · intro cmd h
    unfold process_batch_cycle at h
    split at h
    · simp at h
    · split at h
      · simp at h
      · split at h
        · split at h <;> simp at h
        · split at h
          · rename_i hcond
            split at h
            · simp at h
            · exact ⟨by rename_i hnothi _ _ _; omega, hcond⟩
          · simp at h

/-- Instance of `dispatch_size_policy_precedence` at a concrete queue and
thresholds where both policies would fire. -/
theorem dispatch_size_policy_precedence_witness :
    ((∃ cmd,
        (process_batch_cycle [((50000, 20, "illumina", "NO_DOWNSIZING"), ["a"])]
          0 1 1 600 600).action = .sizePolicy cmd ∧
        (process_batch_cycle [((50000, 20, "illumina", "NO_DOWNSIZING"), ["a"])]
          0 1 1 600 600).launched = some cmd) ∧
      (∀ cmd,
        (process_batch_cycle [((50000, 20, "illumina", "NO_DOWNSIZING"), ["a"])]
          0 1 1 600 600).action ≠ .timeoutPolicy cmd)) ∧
    (∀ cmd,
      (process_batch_cycle [((50000, 20, "illumina", "NO_DOWNSIZING"), ["a"])]
        0 1 1 600 600).action = .timeoutPolicy cmd →
      (get_highest_number_of_sentrix_ids
          [((50000, 20, "illumina", "NO_DOWNSIZING"), ["a"])] : Int) < 1 ∧
      0 < get_highest_number_of_sentrix_ids
          [((50000, 20, "illumina", "NO_DOWNSIZING"), ["a"])] ∧
      (600 : Int) ≤ 600) :=
  ⟨(dispatch_size_policy_precedence
      [((50000, 20, "illumina", "NO_DOWNSIZING"), ["a"])] 0 1 1 600 600
      (by decide)).1 (by decide) (by decide) (by decide) (by decide),
   (dispatch_size_policy_precedence
      [((50000, 20, "illumina", "NO_DOWNSIZING"), ["a"])] 0 1 1 600 600
      (by decide)).2⟩

/-- C6: the dispatch cycle never launches a container when the reported
running count is at or above the configured maximum (the queue is left
untouched), and when the count query errors (the -1 sentinel) the cycle
takes the logged countError path — launching nothing, popping and
splitting nothing — and the loop goes on to the next cycle rather than
dying. -/
theorem dispatch_fails_closed (q : Queue) (rc mx bs te bt : Int) :
    (mx ≤ rc → (process_batch_cycle q rc mx bs te bt).launched = none ∧
      (process_batch_cycle q rc mx bs te bt).queue = q) ∧
    (rc = -1 → process_batch_cycle q rc mx bs te bt
      = ⟨.countError, q, none⟩) := by
  constructor
  · intro hle
    unfold process_batch_cycle
    by_cases hrc : rc = -1
    · rw [if_pos hrc]
      exact ⟨rfl, rfl⟩
    · rw [if_neg hrc, if_pos hle]
      exact ⟨rfl, rfl⟩
  · intro hrc
    unfold process_batch_cycle
    rw [if_pos hrc]

/-- Instance of `dispatch_fails_closed` at a concrete queue, with the
count query erroring while a qualifying batch exists. -/
theorem dispatch_fails_closed_witness :
    ((process_batch_cycle [((50000, 20, "illumina", "NO_DOWNSIZING"), ["a"])]
        (-1) (-1) 100 0 600).launched = none ∧
      (process_batch_cycle [((50000, 20, "illumina", "NO_DOWNSIZING"), ["a"])]
        (-1) (-1) 100 0 600).queue
        = [((50000, 20, "illumina", "NO_DOWNSIZING"), ["a"])]) ∧
    process_batch_cycle [((50000, 20, "illumina", "NO_DOWNSIZING"), ["a"])]
        (-1) (-1) 100 0 600
      = ⟨.countError, [((50000, 20, "illumina", "NO_DOWNSIZING"), ["a"])], none⟩ :=
  ⟨(dispatch_fails_closed [((50000, 20, "illumina", "NO_DOWNSIZING"), ["a"])]
      (-1) (-1) 100 0 600).1 (by decide),
   (dispatch_fails_closed [((50000, 20, "illumina", "NO_DOWNSIZING"), ["a"])]
      (-1) (-1) 100 0 600).2 rfl⟩

/-- C1 counterexample: a deferred sample "S" whose base status exists and
reports the valid detected type "T" with one available downsizing target
"D" that has no status file yet.  One reconciliation pass adds the
downsizing UnitTask to the aggregator but the sample is NOT removed from
the deferred set — it is removed only when some target status file already
exists. -/
theorem recon_promotion_counterexample :
    (process_not_ready_data_pass reconEnvC1 deferredC1 []).1
      = [(("illumina", 50000, 20), ["S"])] ∧
    (process_not_ready_data_pass reconEnvC1 deferredC1 []).2
      = [((50000, 20, "illumina", "D"), ["S"])] := by
  decide

/-- C1 amended: for a deferred sample whose base status file exists and
reports a valid detected array type, one reconciliation pass adds a new
UnitTask to the aggregator for every downsizing target whose status file
does not exist yet, and the sample is removed from the deferred entry if
and only if at least one downsizing target already has a status file (in
particular, a sample none of whose targets has a status file remains in
the deferred set even though its tasks were queued). -/
theorem recon_promotion (env : ReconEnv) (deferred : List (Settings × List String))
    (q : Queue) (st : Settings) (ids : List String) (sid t : String)
    (hentry : (st, ids) ∈ deferred) (hmem : sid ∈ ids)
    (hstatus : env.baseStatus sid = some (some t))
    (hvalid : t ∈ env.validArrayTypes) :
    (st, ids.filter (fun s => !(processSample env st s).2)) ∈
        (process_not_ready_data_pass env deferred q).1 ∧
    (sid ∈ ids.filter (fun s => !(processSample env st s).2) ↔
      ∀ tgt ∈ env.availableDownsizingTargets t,
        env.targetStatusExists sid tgt = false) ∧
    (∀ tgt ∈ env.availableDownsizingTargets t,
      env.targetStatusExists sid tgt = false →
      queueContains (process_not_ready_data_pass env deferred q).2
        (reconRequest st sid tgt).key sid) := by
  have hmark : (processSample env st sid).2
      = (env.availableDownsizingTargets t).any
          (fun tgt => env.targetStatusExists sid tgt) := by
    unfold processSample
    rw [hstatus]
    simp [hvalid]
  refine ⟨?_, ?_, ?_⟩
  · rw [process_not_ready_data_pass_fst]
    exact List.mem_map.mpr ⟨(st, ids), hentry, rfl⟩
  · rw [List.mem_filter]
    simp only [hmem, true_and, hmark, Bool.not_eq_true', List.any_eq_false]
    simp [Bool.not_eq_true]
  · intro tgt htgt hfalse
    have hr : reconRequest st sid tgt ∈ (processSample env st sid).1 := by
      unfold processSample
      rw [hstatus]
      simp only [hvalid, if_pos, List.mem_filterMap]
      exact ⟨tgt, htgt, by simp [hfalse]⟩
    exact pass_contains_of_mem env deferred q st ids sid
      (reconRequest st sid tgt) sid hentry hmem hr rfl

/-- Instance of `recon_promotion` at the concrete one-sample environment. -/
theorem recon_promotion_witness :
    ((("illumina", 50000, 20) : Settings),
        (["S"] : List String).filter
          (fun s => !(processSample reconEnvC1 ("illumina", 50000, 20) s).2)) ∈
        (process_not_ready_data_pass reconEnvC1 deferredC1 []).1 ∧
    ("S" ∈ (["S"] : List String).filter
          (fun s => !(processSample reconEnvC1 ("illumina", 50000, 20) s).2) ↔
      ∀ tgt ∈ reconEnvC1.availableDownsizingTargets "T",
        reconEnvC1.targetStatusExists "S" tgt = false) ∧
    (∀ tgt ∈ reconEnvC1.availableDownsizingTargets "T",
      reconEnvC1.targetStatusExists "S" tgt = false →
      queueContains (process_not_ready_data_pass reconEnvC1 deferredC1 []).2
        (reconRequest ("illumina", 50000, 20) "S" tgt).key "S") :=
  recon_promotion reconEnvC1 deferredC1 [] ("illumina", 50000, 20) ["S"] "S" "T"
    (by decide) (by decide) (by decide) (by decide)

/-- Instance of `reachable_entries_nonempty` at the state reached by one
add of one request. -/
theorem reachable_entries_nonempty_witness :
    Reachable (add_to_queue [] [{ sentrix_ids := some "A" }]) ∧
    ∀ e ∈ add_to_queue [] [{ sentrix_ids := some "A" }], e.2 ≠ [] :=
  ⟨Reachable.add [] [{ sentrix_ids := some "A" }] Reachable.start,
   reachable_entries_nonempty _
     (Reachable.add [] [{ sentrix_ids := some "A" }] Reachable.start)⟩

end CQ
